import Mathlib

/-!
Shallow embedding of the `nanofish` HTTP/1.1 codec (request parsing in
`src/request.rs`, method resolution in `src/method.rs`, response building in
`src/response.rs`).  Byte buffers are `List Nat` (byte values), decoded text is
`List Nat` (Unicode code points).  The bounded `heapless::Vec` buffers are
modelled by an explicit capacity argument; a Rust panic is modelled by
`Option`/`none`.
-/

/-- Code points of a character list; used to write ASCII literals. -/
def codes (l : List Char) : List Nat := l.map Char.toNat

/-- The CRLF field separator bytes. -/
def crlf : List Nat := [13, 10]

/-- Unicode `White_Space` property, exactly the set used by Rust
`char::is_whitespace` (hence by `str::trim` and `str::split_whitespace`). -/
def isRustWhitespace (c : Nat) : Bool :=
  c == 32 || (decide (9 ≤ c) && decide (c ≤ 13)) || c == 133 || c == 160 ||
  c == 5760 || (decide (8192 ≤ c) && decide (c ≤ 8202)) || c == 8232 ||
  c == 8233 || c == 8239 || c == 8287 || c == 12288

/-- Rust `str::trim`: remove leading and trailing whitespace. -/
def rustTrim (l : List Nat) : List Nat :=
  ((l.dropWhile isRustWhitespace).reverse.dropWhile isRustWhitespace).reverse

/-- Worker for `splitWhitespace`; `acc` holds the current token reversed. -/
def splitWhitespaceAux : List Nat → List Nat → List (List Nat)
  | [], acc => if acc.isEmpty then [] else [acc.reverse]
  | c :: rest, acc =>
    if isRustWhitespace c then
      if acc.isEmpty then splitWhitespaceAux rest []
      else acc.reverse :: splitWhitespaceAux rest []
    else splitWhitespaceAux rest (c :: acc)

/-- Rust `str::split_whitespace`: the non-empty maximal runs of
non-whitespace characters. -/
def splitWhitespace (l : List Nat) : List (List Nat) := splitWhitespaceAux l []

/-- Rust `str::split_inclusive('\n')`: segments each ending with the newline
that produced them (the final segment may lack it); empty input gives no
segments. -/
def splitInclusiveNl : List Nat → List (List Nat)
  | [] => []
  | c :: rest =>
    if c == 10 then [c] :: splitInclusiveNl rest
    else
      match splitInclusiveNl rest with
      | [] => [[c]]
      | seg :: segs => (c :: seg) :: segs

/-- The per-line map of Rust `str::lines`: strip one trailing `\n`, and then
one trailing `\r` only if the `\n` was present. -/
def stripLineEnding (l : List Nat) : List Nat :=
  match l.getLast? with
  | some 10 =>
    match l.dropLast.getLast? with
    | some 13 => l.dropLast.dropLast
    | _ => l.dropLast
  | _ => l

/-- Rust `str::lines`. -/
def rustLines (s : List Nat) : List (List Nat) :=
  (splitInclusiveNl s).map stripLineEnding

/-- A UTF-8 continuation byte. -/
def isUtf8Cont (b : Nat) : Bool := decide (128 ≤ b) && decide (b ≤ 191)

/-- Admissible second byte of a three-byte sequence led by `b` (excludes
overlong forms for `0xE0` and surrogate range for `0xED`). -/
def utf8Second3 (b b1 : Nat) : Bool :=
  if b == 224 then decide (160 ≤ b1) && decide (b1 ≤ 191)
  else if b == 237 then decide (128 ≤ b1) && decide (b1 ≤ 159)
  else isUtf8Cont b1

/-- Admissible second byte of a four-byte sequence led by `b` (excludes
overlong forms for `0xF0` and code points above `U+10FFFF` for `0xF4`). -/
def utf8Second4 (b b1 : Nat) : Bool :=
  if b == 240 then decide (144 ≤ b1) && decide (b1 ≤ 191)
  else if b == 244 then decide (128 ≤ b1) && decide (b1 ≤ 143)
  else isUtf8Cont b1

/-- UTF-8 validation/decoding with the exact acceptance set of Rust
`core::str::from_utf8`: `none` on any invalid, overlong, surrogate or
out-of-range sequence. -/
def utf8Decode : List Nat → Option (List Nat)
  | [] => some []
  | b :: rest =>
    if b ≤ 127 then (utf8Decode rest).map (b :: ·)
    else if decide (194 ≤ b) && decide (b ≤ 223) then
      match rest with
      | [] => none
      | b1 :: rest2 =>
        if isUtf8Cont b1 then
          (utf8Decode rest2).map (((b - 192) * 64 + (b1 - 128)) :: ·)
        else none
    else if decide (224 ≤ b) && decide (b ≤ 239) then
      match rest with
      | b1 :: b2 :: rest3 =>
        if utf8Second3 b b1 && isUtf8Cont b2 then
          (utf8Decode rest3).map
            (((b - 224) * 4096 + (b1 - 128) * 64 + (b2 - 128)) :: ·)
        else none
      | _ => none
    else if decide (240 ≤ b) && decide (b ≤ 244) then
      match rest with
      | b1 :: b2 :: b3 :: rest4 =>
        if utf8Second4 b b1 && isUtf8Cont b2 && isUtf8Cont b3 then
          (utf8Decode rest4).map
            (((b - 240) * 262144 + (b1 - 128) * 4096 + (b2 - 128) * 64 +
              (b3 - 128)) :: ·)
        else none
      | _ => none
    else none

/-- UTF-8 encoding of one Unicode scalar value (Rust `str::as_bytes` view of a
code point). -/
def utf8EncodeChar (c : Nat) : List Nat :=
  if c ≤ 127 then [c]
  else if c ≤ 2047 then [192 + c / 64, 128 + c % 64]
  else if c ≤ 65535 then [224 + c / 4096, 128 + c / 64 % 64, 128 + c % 64]
  else [240 + c / 262144, 128 + c / 4096 % 64, 128 + c / 64 % 64, 128 + c % 64]

/-- UTF-8 encoding of a code-point string (Rust `str::as_bytes`). -/
def utf8Encode (s : List Nat) : List Nat := (s.map utf8EncodeChar).flatten

/-- Embedding of `HttpMethod` from `src/method.rs`: the closed enumeration of the nine
standard verbs. -/
inductive HttpMethod where
  | GET | POST | PUT | DELETE | PATCH | CONNECT | OPTIONS | TRACE | HEAD
deriving DecidableEq

/-- Embedding of `InvalidHttpMethod` from `src/method.rs`. -/
inductive InvalidHttpMethod where
  | invalidHttpMethod
deriving DecidableEq

/-- Modelled from the spec: `error.rs` is not among the provided sources.  The
code in `src/request.rs` only constructs `Error::InvalidResponse(msg)` with a
static message string, so the model carries exactly that constructor (the
message as its code points). -/
inductive Error where
  | invalidResponse : List Nat → Error
deriving DecidableEq

/-- Modelled from the spec: `header.rs` is not among the provided sources.  Per
the spec a Header is a (name, value) pair of borrowed character spans and
construction never fails. -/
structure HttpHeader where
  name : List Nat
  value : List Nat
deriving DecidableEq

/-- Modelled from the spec: `HttpHeader::new` stores the given name and value;
construction never fails. -/
def HttpHeader.new (n v : List Nat) : HttpHeader := ⟨n, v⟩

/-- Modelled from the spec: `status_code.rs` is not among the provided
sources.  Per the spec a StatusCode is a closed enumeration mapping a numeric
code (`as_u16`) to a canonical reason phrase (`text`); the response builder
consumes only those two projections, so the model carries exactly them. -/
structure StatusCode where
  code : Nat
  text : List Nat
deriving DecidableEq

/-- Embedding of `StatusCode::as_u16` (numeric value of the status code). -/
def StatusCode.as_u16 (sc : StatusCode) : Nat := sc.code

/-- Embedding of `HttpRequest` from `src/request.rs`. -/
structure HttpRequest where
  method : HttpMethod
  path : List Nat
  version : List Nat
  headers : List HttpHeader
  body : List Nat
deriving DecidableEq

/-- Embedding of `ResponseBody` from `src/response.rs`: text (code points), binary (bytes),
or empty. -/
inductive ResponseBody where
  | Text : List Nat → ResponseBody
  | Binary : List Nat → ResponseBody
  | Empty : ResponseBody
deriving DecidableEq

/-- Embedding of `ResponseBody::as_bytes` from `src/response.rs`. -/
def ResponseBody.as_bytes : ResponseBody → List Nat
  | .Text s => utf8Encode s
  | .Binary b => b
  | .Empty => []

/-- Embedding of `HttpResponse` from `src/response.rs` (headers live in a
`Vec<HttpHeader, 16>`; capacity only matters at insertion, which the
embedded operations never perform). -/
structure HttpResponse where
  status_code : StatusCode
  headers : List HttpHeader
  body : ResponseBody
deriving DecidableEq

/-- Embedding of `TryFrom<&str> for HttpMethod` from `src/method.rs`: exact case-sensitive
match over the nine verbs, in source order. -/
def methodTryFrom (s : List Nat) : Except InvalidHttpMethod HttpMethod :=
  if s == codes ['G', 'E', 'T'] then .ok .GET
  else if s == codes ['P', 'O', 'S', 'T'] then .ok .POST
  else if s == codes ['P', 'U', 'T'] then .ok .PUT
  else if s == codes ['D', 'E', 'L', 'E', 'T', 'E'] then .ok .DELETE
  else if s == codes ['P', 'A', 'T', 'C', 'H'] then .ok .PATCH
  else if s == codes ['H', 'E', 'A', 'D'] then .ok .HEAD
  else if s == codes ['O', 'P', 'T', 'I', 'O', 'N', 'S'] then .ok .OPTIONS
  else if s == codes ['T', 'R', 'A', 'C', 'E'] then .ok .TRACE
  else if s == codes ['C', 'O', 'N', 'N', 'E', 'C', 'T'] then .ok .CONNECT
  else .error .invalidHttpMethod

/-- Embedding of `MAX_HEADERS` from `src/request.rs`. -/
def MAX_HEADERS : Nat := 16

/-- Message of `Error::InvalidResponse("Missing request line")`. -/
def msgMissingRequestLine : List Nat :=
  codes ['M', 'i', 's', 's', 'i', 'n', 'g', ' ', 'r', 'e', 'q', 'u', 'e', 's',
    't', ' ', 'l', 'i', 'n', 'e']

/-- Message of `Error::InvalidResponse("Missing method")`. -/
def msgMissingMethod : List Nat :=
  codes ['M', 'i', 's', 's', 'i', 'n', 'g', ' ', 'm', 'e', 't', 'h', 'o', 'd']

/-- Message of `Error::InvalidResponse("Missing path")`. -/
def msgMissingPath : List Nat :=
  codes ['M', 'i', 's', 's', 'i', 'n', 'g', ' ', 'p', 'a', 't', 'h']

/-- Message of `Error::InvalidResponse("Missing version")`. -/
def msgMissingVersion : List Nat :=
  codes ['M', 'i', 's', 's', 'i', 'n', 'g', ' ', 'v', 'e', 'r', 's', 'i', 'o',
    'n']

/-- Message of `Error::InvalidResponse("Unknown HTTP method")`. -/
def msgUnknownMethod : List Nat :=
  codes ['U', 'n', 'k', 'n', 'o', 'w', 'n', ' ', 'H', 'T', 'T', 'P', ' ', 'm',
    'e', 't', 'h', 'o', 'd']

/-- Message of `Error::InvalidResponse("Too many headers")`. -/
def msgTooManyHeaders : List Nat :=
  codes ['T', 'o', 'o', ' ', 'm', 'a', 'n', 'y', ' ', 'h', 'e', 'a', 'd', 'e',
    'r', 's']

/-- Message of `Error::InvalidResponse("Incomplete request headers")`. -/
def msgIncompleteHeaders : List Nat :=
  codes ['I', 'n', 'c', 'o', 'm', 'p', 'l', 'e', 't', 'e', ' ', 'r', 'e', 'q',
    'u', 'e', 's', 't', ' ', 'h', 'e', 'a', 'd', 'e', 'r', 's']

/-- Message of `Error::InvalidResponse("Invalid UTF-8 in request")`. -/
def msgInvalidUtf8 : List Nat :=
  codes ['I', 'n', 'v', 'a', 'l', 'i', 'd', ' ', 'U', 'T', 'F', '-', '8', ' ',
    'i', 'n', ' ', 'r', 'e', 'q', 'u', 'e', 's', 't']

/-- The header loop of `HttpRequest::parse_from` (`src/request.rs` lines
59-74): stop at a blank line, skip colon-free lines, split at the first colon,
trim both sides, push into the bounded header vector (`heapless` push fails
exactly when the vector already holds `MAX_HEADERS` entries). -/
def parseHeadersLoop : List (List Nat) → List HttpHeader →
    Except Error (List HttpHeader)
  | [], headers => .ok headers
  | line :: rest, headers =>
    if line.isEmpty then .ok headers
    else
      match line.findIdx? (· == 58) with
      | none => parseHeadersLoop rest headers
      | some colonPos =>
        if headers.length < MAX_HEADERS then
          parseHeadersLoop rest (headers ++
            [HttpHeader.new (rustTrim (line.take colonPos))
              (rustTrim (line.drop (colonPos + 1)))])
        else .error (.invalidResponse msgTooManyHeaders)

/-- Embedding of `HttpRequest::parse_from` from `src/request.rs`. -/
def parse_from (headersStr : List Nat) (body : List Nat) :
    Except Error HttpRequest :=
  match rustLines headersStr with
  | [] => .error (.invalidResponse msgMissingRequestLine)
  | requestLine :: restLines =>
    match splitWhitespace requestLine with
    | [] => .error (.invalidResponse msgMissingMethod)
    | [_] => .error (.invalidResponse msgMissingPath)
    | [_, _] => .error (.invalidResponse msgMissingVersion)
    | methodStr :: path :: version :: _ =>
      match methodTryFrom methodStr with
      | .error _ => .error (.invalidResponse msgUnknownMethod)
      | .ok m =>
        match parseHeadersLoop restLines [] with
        | .error e => .error e
        | .ok headers => .ok ⟨m, path, version, headers, body⟩

/-- Embedding of `find_double_crlf` from `src/request.rs`: first index whose four-byte
window is CRLF CRLF. -/
def find_double_crlf (data : List Nat) : Option Nat :=
  (List.range (data.length - 3)).find?
    (fun i => (data.drop i).take 4 == [13, 10, 13, 10])

/-- Embedding of `TryFrom<&[u8]> for HttpRequest` from `src/request.rs`: locate the header
end, validate the header bytes as UTF-8, parse, and take the bytes after the
separator as the body. -/
def try_from (buffer : List Nat) : Except Error HttpRequest :=
  match find_double_crlf buffer with
  | none => .error (.invalidResponse msgIncompleteHeaders)
  | some i =>
    match utf8Decode (buffer.take i) with
    | none => .error (.invalidResponse msgInvalidUtf8)
    | some headersStr => parse_from headersStr (buffer.drop (i + 4))

/-- Comparison used by `HttpResponse::get_header`: Rust `eq_ignore_ascii_case`
(ASCII letters compared case-insensitively, everything else exactly). -/
def toAsciiLower (c : Nat) : Nat :=
  if decide (65 ≤ c) && decide (c ≤ 90) then c + 32 else c

/-- Rust `str::eq_ignore_ascii_case`. -/
def eqIgnoreAsciiCase (a b : List Nat) : Bool :=
  a.map toAsciiLower == b.map toAsciiLower

/-- Embedding of `HttpResponse::get_header` from `src/response.rs`: value of the first
header whose name matches case-insensitively. -/
def get_header (resp : HttpResponse) (name : List Nat) : Option (List Nat) :=
  (resp.headers.find? (fun h => eqIgnoreAsciiCase h.name name)).map
    HttpHeader.value

/-- Model of `heapless::Vec::extend_from_slice` on a `Vec<u8, cap>`: all-or-nothing; on
capacity overflow nothing is appended (the `Err` the source discards). -/
def extendFromSlice (cap : Nat) (v s : List Nat) : List Nat :=
  if v.length + s.length ≤ cap then v ++ s else v

/-- Model of `heapless::Vec::push` on a `Vec<u8, cap>`: appends unless full (the `Err`
the source discards). -/
def hpush (cap : Nat) (v : List Nat) (b : Nat) : List Nat :=
  if v.length < cap then v ++ [b] else v

/-- The digit loop of `write_decimal_to_buffer` (`src/response.rs` lines
172-182): store `num % 10` digits into the fixed array at successive indices;
an index past the end of the array is a Rust panic, modelled as `none`.
Returns the final array and the digit count `i`. -/
def writeDigitsLoop (num : Nat) (digits : List Nat) (i : Nat) :
    Option (List Nat × Nat) :=
  if h : num = 0 then some (digits, i)
  else if i < digits.length then
    writeDigitsLoop (num / 10) (digits.set i (num % 10 + 48)) (i + 1)
  else none
termination_by num
decreasing_by exact Nat.div_lt_self (Nat.pos_of_ne_zero h) (by omega)

/-- Embedding of `write_decimal_to_buffer` from `src/response.rs`: fast path for zero, else
collect digits least-significant first into a 10-byte array and push them in
reverse order. -/
def write_decimal_to_buffer (cap : Nat) (bytes : List Nat) (num : Nat) :
    Option (List Nat) :=
  if num == 0 then some (hpush cap bytes 48)
  else
    match writeDigitsLoop num (List.replicate 10 0) 0 with
    | none => none
    | some (digits, i) =>
      some ((List.range i).reverse.foldl
        (fun acc j => hpush cap acc (digits.getD j 0)) bytes)

/-- Embedding of `write_status_line` from `src/response.rs`. -/
def write_status_line (cap : Nat) (bytes : List Nat) (sc : StatusCode) :
    Option (List Nat) :=
  match write_decimal_to_buffer cap
      (extendFromSlice cap bytes
        (codes ['H', 'T', 'T', 'P', '/', '1', '.', '1', ' '])) sc.as_u16 with
  | none => none
  | some b2 =>
    some (extendFromSlice cap
      (extendFromSlice cap (hpush cap b2 32) (utf8Encode sc.text)) crlf)

/-- One iteration of the header loop of `HttpResponse::build_bytes`
(`src/response.rs` lines 120-125). -/
def headerFold (cap : Nat) (bytes : List Nat) (h : HttpHeader) : List Nat :=
  extendFromSlice cap
    (extendFromSlice cap
      (extendFromSlice cap (extendFromSlice cap bytes (utf8Encode h.name))
        (codes [':', ' ']))
      (utf8Encode h.value)) crlf

/-- Embedding of `HttpResponse::build_bytes::<cap>` from `src/response.rs`: status line,
headers, a synthesized Content-Length when the body is non-empty, blank line,
body.  Every append silently drops on capacity overflow, exactly as the
source discards each `Result`; `none` only models the decimal-digit panic. -/
def build_bytes (cap : Nat) (resp : HttpResponse) : Option (List Nat) :=
  match write_status_line cap [] resp.status_code with
  | none => none
  | some b1 =>
    let b2 := resp.headers.foldl (headerFold cap) b1
    let body_bytes := resp.body.as_bytes
    if body_bytes.isEmpty then
      some (extendFromSlice cap (extendFromSlice cap b2 crlf) body_bytes)
    else
      match write_decimal_to_buffer cap
          (extendFromSlice cap b2
            (codes ['C', 'o', 'n', 't', 'e', 'n', 't', '-', 'L', 'e', 'n',
              'g', 't', 'h', ':', ' '])) body_bytes.length with
      | none => none
      | some b3 =>
        some (extendFromSlice cap
          (extendFromSlice cap (extendFromSlice cap b3 crlf) crlf) body_bytes)

/-- Decimal digits of `n`, least-significant first (`[]` for zero); the
mathematical counterpart of the source's digit loop. -/
def natDigitsRev (n : Nat) : List Nat :=
  if h : n = 0 then [] else (n % 10 + 48) :: natDigitsRev (n / 10)
termination_by n
decreasing_by exact Nat.div_lt_self (Nat.pos_of_ne_zero h) (by omega)

/-- The decimal rendering of `n` as ASCII bytes, most-significant first. -/
def specDecimal (n : Nat) : List Nat :=
  if n == 0 then [48] else (natDigitsRev n).reverse

/-- Numeric value of a most-significant-first ASCII digit string. -/
def decimalValue (ds : List Nat) : Nat :=
  ds.foldl (fun a d => a * 10 + (d - 48)) 0

/-- The headers the parse loop should collect from `lns` (spec §4.2 step 4):
lines up to a blank line, colon-free lines skipped, each other line split at
its first colon with both sides trimmed, in line order. -/
def collectedHeaders (lns : List (List Nat)) : List HttpHeader :=
  (lns.takeWhile (fun l => !l.isEmpty)).filterMap (fun line =>
    (line.findIdx? (· == 58)).map (fun cp =>
      HttpHeader.new (rustTrim (line.take cp)) (rustTrim (line.drop (cp + 1)))))

/-- Untruncated rendering of the status line (spec §4.3 step 1). -/
def statusLineBytes (sc : StatusCode) : List Nat :=
  codes ['H', 'T', 'T', 'P', '/', '1', '.', '1', ' '] ++
    specDecimal sc.code ++ [32] ++ utf8Encode sc.text ++ crlf

/-- Untruncated rendering of one header line (spec §4.3 step 2). -/
def headerLineBytes (h : HttpHeader) : List Nat :=
  utf8Encode h.name ++ codes [':', ' '] ++ utf8Encode h.value ++ crlf

/-- Untruncated rendering of the synthesized Content-Length line (spec §4.3
step 3). -/
def contentLengthBytes (n : Nat) : List Nat :=
  codes ['C', 'o', 'n', 't', 'e', 'n', 't', '-', 'L', 'e', 'n', 'g', 't', 'h',
    ':', ' '] ++ specDecimal n ++ crlf

/-- The full untruncated serialization of a response (spec §4.3 steps 1-5). -/
def renderFull (resp : HttpResponse) : List Nat :=
  statusLineBytes resp.status_code ++
    (resp.headers.map headerLineBytes).flatten ++
    (if resp.body.as_bytes.isEmpty then []
      else contentLengthBytes resp.body.as_bytes.length) ++
    crlf ++ resp.body.as_bytes

/-- The four-byte window of `data` at offset `j` is CRLF CRLF. -/
def hasDoubleCrlfAt (data : List Nat) (j : Nat) : Prop :=
  (data.drop j).take 4 = [13, 10, 13, 10]

instance (data : List Nat) (j : Nat) : Decidable (hasDoubleCrlfAt data j) := by
  unfold hasDoubleCrlfAt; infer_instance

/-- The concrete response of the truncation scenario: status 200 OK, no
headers, body text Hello. -/
def respHello : HttpResponse :=
  ⟨⟨200, codes ['O', 'K']⟩, [], .Text (codes ['H', 'e', 'l', 'l', 'o'])⟩


theorem extendFromSlice_eq {cap : Nat} {b s : List Nat}
    (h : b.length + s.length ≤ cap) : extendFromSlice cap b s = b ++ s := by
  simp [extendFromSlice, h]

theorem hpush_eq {cap : Nat} {b : List Nat} {x : Nat} (h : b.length < cap) :
    hpush cap b x = b ++ [x] := by
  simp [hpush, h]

theorem extendFromSlice_nil {cap : Nat} {b : List Nat} :
    extendFromSlice cap b [] = b := by
  unfold extendFromSlice
  split <;> simp

theorem natDigitsRev_zero : natDigitsRev 0 = [] := by
  simp [natDigitsRev]

theorem natDigitsRev_pos {n : Nat} (h : n ≠ 0) :
    natDigitsRev n = (n % 10 + 48) :: natDigitsRev (n / 10) := by
  rw [natDigitsRev]
  simp [h]

theorem natDigitsRev_length_le {k : Nat} : ∀ {n : Nat}, n < 10 ^ k →
    (natDigitsRev n).length ≤ k := by
  induction k with
  | zero =>
    intro n h
    have : n = 0 := by simpa using h
    simp [this, natDigitsRev_zero]
  | succ k ih =>
    intro n h
    by_cases hn : n = 0
    · simp [hn, natDigitsRev_zero]
    · rw [natDigitsRev_pos hn]
      have hd : n / 10 < 10 ^ k := by
        rw [Nat.div_lt_iff_lt_mul (by omega)]
        calc n < 10 ^ (k + 1) := h
          _ = 10 ^ k * 10 := by ring
      simpa using ih hd

theorem natDigitsRev_length_gt {k : Nat} : ∀ {n : Nat}, 10 ^ k ≤ n →
    k < (natDigitsRev n).length := by
  induction k with
  | zero =>
    intro n h
    have hn : n ≠ 0 := by
      have : (1 : Nat) ≤ n := by simpa using h
      omega
    rw [natDigitsRev_pos hn]
    simp
  | succ k ih =>
    intro n h
    have hn : n ≠ 0 := by
      have h10 : (1 : Nat) ≤ 10 ^ (k + 1) := Nat.one_le_pow _ _ (by omega)
      omega
    rw [natDigitsRev_pos hn]
    have hd : 10 ^ k ≤ n / 10 := by
      rw [Nat.le_div_iff_mul_le (by omega)]
      calc 10 ^ k * 10 = 10 ^ (k + 1) := by ring
        _ ≤ n := h
    simpa using ih hd

theorem natDigitsRev_digit_mem {n : Nat} : ∀ d ∈ natDigitsRev n,
    48 ≤ d ∧ d ≤ 57 := by
  induction n using Nat.strong_induction_on with
  | _ n ih =>
    by_cases hn : n = 0
    · simp [hn, natDigitsRev_zero]
    · rw [natDigitsRev_pos hn]
      intro d hd
      rw [List.mem_cons] at hd
      rcases hd with rfl | hd
      · have : n % 10 < 10 := Nat.mod_lt _ (by omega)
        omega
      · exact ih (n / 10) (Nat.div_lt_self (Nat.pos_of_ne_zero hn) (by omega))
          d hd

theorem natDigitsRev_getLast {n : Nat} :
    ∀ d, (natDigitsRev n).getLast? = some d → 49 ≤ d := by
  induction n using Nat.strong_induction_on with
  | _ n ih =>
    intro d hd
    by_cases hn : n = 0
    · rw [hn, natDigitsRev_zero] at hd
      simp at hd
    · by_cases h10 : n / 10 = 0
      · rw [natDigitsRev_pos hn, h10, natDigitsRev_zero] at hd
        simp at hd
        omega
      · rw [natDigitsRev_pos hn, natDigitsRev_pos h10,
          List.getLast?_cons_cons, ← natDigitsRev_pos h10] at hd
        exact ih (n / 10) (Nat.div_lt_self (Nat.pos_of_ne_zero hn) (by omega))
          d hd

theorem natDigitsRev_foldr_value : ∀ {n : Nat},
    (natDigitsRev n).foldr (fun d a => a * 10 + (d - 48)) 0 = n := by
  intro n
  induction n using Nat.strong_induction_on with
  | _ n ih =>
    by_cases hn : n = 0
    · simp [hn, natDigitsRev_zero]
    · rw [natDigitsRev_pos hn]
      simp only [List.foldr_cons]
      rw [ih (n / 10) (Nat.div_lt_self (Nat.pos_of_ne_zero hn) (by omega))]
      omega

theorem decimalValue_specDecimal {n : Nat} :
    decimalValue (specDecimal n) = n := by
  by_cases hn : n = 0
  · simp [hn, specDecimal, decimalValue]
  · rw [specDecimal, if_neg (by simpa using hn), decimalValue,
      List.foldl_reverse]
    exact natDigitsRev_foldr_value

theorem writeDigitsLoop_spec {n : Nat} : ∀ {d : List Nat} {i : Nat}, n ≠ 0 →
    i + (natDigitsRev n).length ≤ d.length →
    ∃ ds, writeDigitsLoop n d i = some (ds, i + (natDigitsRev n).length) ∧
      ds.length = d.length ∧
      (∀ j, j < i → ds.getD j 0 = d.getD j 0) ∧
      (∀ j, j < (natDigitsRev n).length →
        ds.getD (i + j) 0 = (natDigitsRev n).getD j 0) := by
  induction n using Nat.strong_induction_on with
  | _ n ih =>
    intro d i hn hle
    have hlen1 : 1 ≤ (natDigitsRev n).length := by
      rw [natDigitsRev_pos hn]; simp
    have hi : i < d.length := by omega
    rw [writeDigitsLoop, dif_neg hn, if_pos hi]
    by_cases h10 : n / 10 = 0
    · rw [writeDigitsLoop, dif_pos h10]
      refine ⟨d.set i (n % 10 + 48), ?_, by simp, ?_, ?_⟩
      · rw [natDigitsRev_pos hn, h10, natDigitsRev_zero]
        simp
      · intro j hj
        have hne : i ≠ j := by omega
        simp [List.getD_eq_getElem?_getD, List.getElem?_set_ne hne]
      · intro j hj
        rw [natDigitsRev_pos hn, h10, natDigitsRev_zero] at hj ⊢
        simp at hj
        subst hj
        simp [List.getD_eq_getElem?_getD, List.getElem?_set_self hi]
    · have hrec := ih (n / 10)
        (Nat.div_lt_self (Nat.pos_of_ne_zero hn) (by omega))
        (d := d.set i (n % 10 + 48)) (i := i + 1) h10 ?_
      · obtain ⟨ds, hds, hdslen, hlow, hhigh⟩ := hrec
        refine ⟨ds, ?_, by simpa using hdslen, ?_, ?_⟩
        · rw [hds]
          rw [natDigitsRev_pos hn]
          simp
          omega
        · intro j hj
          rw [hlow j (by omega)]
          have hne : i ≠ j := by omega
          simp [List.getD_eq_getElem?_getD, List.getElem?_set_ne hne]
        · intro j hj
          rcases j with _ | j'
          · rw [Nat.add_zero, hlow i (by omega)]
            rw [natDigitsRev_pos hn]
            simp [List.getD_eq_getElem?_getD, List.getElem?_set_self hi]
          · have : i + (j' + 1) = (i + 1) + j' := by omega
            rw [this, hhigh j' ?_]
            · rw [natDigitsRev_pos hn]
              simp
            · rw [natDigitsRev_pos hn] at hj
              simp at hj
              omega
      · rw [natDigitsRev_pos hn] at hle
        simp at hle ⊢
        omega

theorem writeDigitsLoop_none {n : Nat} : ∀ {d : List Nat} {i : Nat}, n ≠ 0 →
    d.length < i + (natDigitsRev n).length → writeDigitsLoop n d i = none := by
  induction n using Nat.strong_induction_on with
  | _ n ih =>
    intro d i hn hlt
    rw [writeDigitsLoop, dif_neg hn]
    by_cases hi : i < d.length
    · rw [if_pos hi]
      by_cases h10 : n / 10 = 0
      · exfalso
        rw [natDigitsRev_pos hn, h10, natDigitsRev_zero] at hlt
        simp at hlt
        omega
      · refine ih (n / 10)
          (Nat.div_lt_self (Nat.pos_of_ne_zero hn) (by omega)) h10 ?_
        rw [natDigitsRev_pos hn] at hlt
        simp at hlt ⊢
        omega
    · rw [if_neg hi]

theorem hpush_foldl_range {cap : Nat} {g : Nat → Nat} : ∀ (k : Nat)
    (b : List Nat), b.length + k ≤ cap →
    (List.range k).reverse.foldl (fun acc j => hpush cap acc (g j)) b =
      b ++ ((List.range k).map g).reverse := by
  intro k
  induction k with
  | zero => simp
  | succ k ih =>
    intro b hb
    rw [List.range_succ, List.reverse_append]
    simp only [List.reverse_cons, List.reverse_nil, List.nil_append,
      List.singleton_append, List.foldl_cons]
    rw [hpush_eq (by omega), ih (b ++ [g k]) (by simp; omega)]
    simp [List.map_append]

theorem map_range_getD {l : List Nat} {f : Nat → Nat}
    (h : ∀ j, j < l.length → f j = l.getD j 0) :
    (List.range l.length).map f = l := by
  apply List.ext_getElem
  · simp
  · intro i h1 h2
    simp only [List.getElem_map, List.getElem_range]
    rw [h i (by simpa using h1)]
    simp [List.getD_eq_getElem?_getD, List.getElem?_eq_getElem h2]

theorem write_decimal_zero {cap : Nat} {b : List Nat} :
    write_decimal_to_buffer cap b 0 = some (hpush cap b 48) := by
  simp [write_decimal_to_buffer]

theorem write_decimal_eq {cap : Nat} {b : List Nat} {n : Nat} (hn : n ≠ 0)
    (hlt : n < 10 ^ 10)
    (hcap : b.length + (natDigitsRev n).length ≤ cap) :
    write_decimal_to_buffer cap b n = some (b ++ (natDigitsRev n).reverse) := by
  obtain ⟨ds, hds, hdslen, -, hget⟩ := writeDigitsLoop_spec
    (d := List.replicate 10 0) (i := 0) hn
    (by simpa using natDigitsRev_length_le hlt)
  rw [write_decimal_to_buffer, if_neg (by simpa using hn)]
  rw [hds]
  simp only [Nat.zero_add]
  rw [hpush_foldl_range _ b (by omega)]
  congr 1
  have : (List.range (natDigitsRev n).length).map (fun j => ds.getD j 0) =
      natDigitsRev n := by
    apply map_range_getD
    intro j hj
    simpa using hget j hj
  rw [this]

theorem write_decimal_overflow {cap : Nat} {b : List Nat} {n : Nat}
    (h : 10 ^ 10 ≤ n) : write_decimal_to_buffer cap b n = none := by
  have hn : n ≠ 0 := by
    have : (1 : Nat) ≤ 10 ^ 10 := Nat.one_le_pow _ _ (by omega)
    omega
  rw [write_decimal_to_buffer, if_neg (by simpa using hn)]
  rw [writeDigitsLoop_none hn (by simpa using natDigitsRev_length_gt h)]

theorem write_decimal_isSome {cap : Nat} {b : List Nat} {n : Nat} :
    (write_decimal_to_buffer cap b n).isSome = true ↔ n < 10 ^ 10 := by
  constructor
  · intro h
    by_contra hge
    rw [write_decimal_overflow (by omega)] at h
    simp at h
  · intro hlt
    by_cases hn : n = 0
    · rw [hn, write_decimal_zero]
      simp
    · obtain ⟨ds, hds, -, -, -⟩ := writeDigitsLoop_spec
        (d := List.replicate 10 0) (i := 0) hn
        (by simpa using natDigitsRev_length_le hlt)
      rw [write_decimal_to_buffer, if_neg (by simpa using hn), hds]
      simp

theorem write_decimal_spec {cap : Nat} {b : List Nat} {n : Nat}
    (hlt : n < 10 ^ 10) (hcap : b.length + (specDecimal n).length ≤ cap) :
    write_decimal_to_buffer cap b n = some (b ++ specDecimal n) := by
  by_cases hn : n = 0
  · subst hn
    rw [write_decimal_zero, hpush_eq ?_]
    · simp [specDecimal]
    · simp only [specDecimal] at hcap
      simp at hcap
      omega
  · rw [write_decimal_eq hn hlt ?_]
    · rw [specDecimal, if_neg (by simpa using hn)]
    · rw [specDecimal, if_neg (by simpa using hn)] at hcap
      simpa using hcap

theorem write_status_line_eq {cap : Nat} {b : List Nat} {sc : StatusCode}
    (hsc : sc.code < 10 ^ 10)
    (hcap : b.length + (statusLineBytes sc).length ≤ cap) :
    write_status_line cap b sc = some (b ++ statusLineBytes sc) := by
  have hA : (codes ['H', 'T', 'T', 'P', '/', '1', '.', '1', ' ']).length = 9 :=
    by decide
  have hB : crlf.length = 2 := by decide
  have hle : b.length + 9 + (specDecimal sc.code).length + 1 +
      (utf8Encode sc.text).length + 2 ≤ cap := by
    have h := hcap
    simp only [statusLineBytes, List.length_append, hA, hB, List.length_cons,
      List.length_nil] at h
    omega
  have e1 : extendFromSlice cap b
      (codes ['H', 'T', 'T', 'P', '/', '1', '.', '1', ' ']) =
      b ++ codes ['H', 'T', 'T', 'P', '/', '1', '.', '1', ' '] :=
    extendFromSlice_eq (by rw [hA]; omega)
  have e2 : write_decimal_to_buffer cap
      (b ++ codes ['H', 'T', 'T', 'P', '/', '1', '.', '1', ' ']) sc.as_u16 =
      some ((b ++ codes ['H', 'T', 'T', 'P', '/', '1', '.', '1', ' ']) ++
        specDecimal sc.code) := by
    simp only [StatusCode.as_u16]
    exact write_decimal_spec hsc (by simp [hA]; omega)
  have e3 : hpush cap ((b ++ codes ['H', 'T', 'T', 'P', '/', '1', '.', '1',
      ' ']) ++ specDecimal sc.code) 32 =
      ((b ++ codes ['H', 'T', 'T', 'P', '/', '1', '.', '1', ' ']) ++
        specDecimal sc.code) ++ [32] :=
    hpush_eq (by simp [hA]; omega)
  have e4 : extendFromSlice cap (b ++ codes ['H', 'T', 'T', 'P', '/', '1',
      '.', '1', ' '] ++ specDecimal sc.code ++ [32]) (utf8Encode sc.text) =
      b ++ codes ['H', 'T', 'T', 'P', '/', '1', '.', '1', ' '] ++
        specDecimal sc.code ++ [32] ++ utf8Encode sc.text :=
    extendFromSlice_eq (by simp [hA]; omega)
  have e5 : extendFromSlice cap (b ++ codes ['H', 'T', 'T', 'P', '/', '1',
      '.', '1', ' '] ++ specDecimal sc.code ++ [32] ++ utf8Encode sc.text)
      crlf =
      b ++ codes ['H', 'T', 'T', 'P', '/', '1', '.', '1', ' '] ++
        specDecimal sc.code ++ [32] ++ utf8Encode sc.text ++ crlf :=
    extendFromSlice_eq (by simp [hA, hB]; omega)
  rw [write_status_line, e1, e2]
  dsimp only
  rw [e3, e4, e5]
  simp [statusLineBytes, List.append_assoc]

theorem headerFold_eq {cap : Nat} {b : List Nat} {h : HttpHeader}
    (hcap : b.length + (headerLineBytes h).length ≤ cap) :
    headerFold cap b h = b ++ headerLineBytes h := by
  have hB : crlf.length = 2 := by decide
  have hC : (codes [':', ' ']).length = 2 := by decide
  have hle : b.length + (utf8Encode h.name).length + 2 +
      (utf8Encode h.value).length + 2 ≤ cap := by
    have hx := hcap
    simp only [headerLineBytes, List.length_append, hB, hC] at hx
    omega
  have e1 : extendFromSlice cap b (utf8Encode h.name) =
      b ++ utf8Encode h.name := extendFromSlice_eq (by omega)
  have e2 : extendFromSlice cap (b ++ utf8Encode h.name) (codes [':', ' ']) =
      b ++ utf8Encode h.name ++ codes [':', ' '] :=
    extendFromSlice_eq (by simp [hC]; omega)
  have e3 : extendFromSlice cap (b ++ utf8Encode h.name ++ codes [':', ' '])
      (utf8Encode h.value) =
      b ++ utf8Encode h.name ++ codes [':', ' '] ++ utf8Encode h.value :=
    extendFromSlice_eq (by simp [hC]; omega)
  have e4 : extendFromSlice cap
      (b ++ utf8Encode h.name ++ codes [':', ' '] ++ utf8Encode h.value)
      crlf =
      b ++ utf8Encode h.name ++ codes [':', ' '] ++ utf8Encode h.value ++
        crlf :=
    extendFromSlice_eq (by simp [hC, hB]; omega)
  rw [headerFold, e1, e2, e3, e4]
  simp [headerLineBytes, List.append_assoc]

theorem headers_foldl_eq {cap : Nat} : ∀ (hs : List HttpHeader)
    (b : List Nat),
    b.length + ((hs.map headerLineBytes).flatten).length ≤ cap →
    hs.foldl (headerFold cap) b = b ++ (hs.map headerLineBytes).flatten := by
  intro hs
  induction hs with
  | nil => simp
  | cons h t ih =>
    intro b hb
    simp only [List.map_cons, List.flatten_cons, List.length_append] at hb
    simp only [List.map_cons, List.flatten_cons, List.foldl_cons]
    rw [headerFold_eq (by omega),
      ih _ (by simp only [List.length_append]; omega)]
    simp [List.append_assoc]

theorem build_bytes_eq {cap : Nat} {resp : HttpResponse}
    (hsc : resp.status_code.code < 10 ^ 10)
    (hbl : resp.body.as_bytes.length < 10 ^ 10)
    (hcap : (renderFull resp).length ≤ cap) :
    build_bytes cap resp = some (renderFull resp) := by
  have hB2 : crlf.length = 2 := by decide
  have h16 : (codes ['C', 'o', 'n', 't', 'e', 'n', 't', '-', 'L', 'e', 'n',
      'g', 't', 'h', ':', ' ']).length = 16 := by decide
  by_cases hE : resp.body.as_bytes.isEmpty
  · have hBnil : resp.body.as_bytes = [] := List.isEmpty_iff.mp hE
    have hle : (statusLineBytes resp.status_code).length +
        ((resp.headers.map headerLineBytes).flatten).length + 2 ≤ cap := by
      have hx := hcap
      rw [renderFull, if_pos hE] at hx
      simp only [hBnil, List.append_nil, List.length_append, hB2] at hx
      omega
    have e1 : write_status_line cap [] resp.status_code =
        some (statusLineBytes resp.status_code) := by
      simpa using write_status_line_eq hsc (by simpa using (by omega :
        (statusLineBytes resp.status_code).length ≤ cap))
    have e2 : resp.headers.foldl (headerFold cap)
        (statusLineBytes resp.status_code) =
        statusLineBytes resp.status_code ++
          (resp.headers.map headerLineBytes).flatten :=
      headers_foldl_eq _ _ (by omega)
    have e3 : extendFromSlice cap (statusLineBytes resp.status_code ++
        (resp.headers.map headerLineBytes).flatten) crlf =
        statusLineBytes resp.status_code ++
          (resp.headers.map headerLineBytes).flatten ++ crlf :=
      extendFromSlice_eq (by simp only [List.length_append, hB2]; omega)
    rw [build_bytes, e1]
    dsimp only
    rw [if_pos hE, e2, e3, hBnil, extendFromSlice_nil]
    rw [renderFull, if_pos hE]
    simp [hBnil, List.append_assoc]
  · have hle : (statusLineBytes resp.status_code).length +
        ((resp.headers.map headerLineBytes).flatten).length +
        (16 + (specDecimal resp.body.as_bytes.length).length + 2) + 2 +
        resp.body.as_bytes.length ≤ cap := by
      have hx := hcap
      rw [renderFull, if_neg hE] at hx
      simp only [contentLengthBytes, List.length_append, h16, hB2] at hx
      omega
    have e1 : write_status_line cap [] resp.status_code =
        some (statusLineBytes resp.status_code) := by
      simpa using write_status_line_eq hsc (by simpa using (by omega :
        (statusLineBytes resp.status_code).length ≤ cap))
    have e2 : resp.headers.foldl (headerFold cap)
        (statusLineBytes resp.status_code) =
        statusLineBytes resp.status_code ++
          (resp.headers.map headerLineBytes).flatten :=
      headers_foldl_eq _ _ (by omega)
    have e3 : extendFromSlice cap (statusLineBytes resp.status_code ++
        (resp.headers.map headerLineBytes).flatten)
        (codes ['C', 'o', 'n', 't', 'e', 'n', 't', '-', 'L', 'e', 'n', 'g',
          't', 'h', ':', ' ']) =
        statusLineBytes resp.status_code ++
          (resp.headers.map headerLineBytes).flatten ++
          codes ['C', 'o', 'n', 't', 'e', 'n', 't', '-', 'L', 'e', 'n', 'g',
            't', 'h', ':', ' '] :=
      extendFromSlice_eq (by simp only [List.length_append, h16]; omega)
    have e4 : write_decimal_to_buffer cap
        (statusLineBytes resp.status_code ++
          (resp.headers.map headerLineBytes).flatten ++
          codes ['C', 'o', 'n', 't', 'e', 'n', 't', '-', 'L', 'e', 'n', 'g',
            't', 'h', ':', ' ']) resp.body.as_bytes.length =
        some (statusLineBytes resp.status_code ++
          (resp.headers.map headerLineBytes).flatten ++
          codes ['C', 'o', 'n', 't', 'e', 'n', 't', '-', 'L', 'e', 'n', 'g',
            't', 'h', ':', ' '] ++
          specDecimal resp.body.as_bytes.length) :=
      write_decimal_spec hbl (by simp only [List.length_append, h16]; omega)
    have e5 : extendFromSlice cap (statusLineBytes resp.status_code ++
        (resp.headers.map headerLineBytes).flatten ++
        codes ['C', 'o', 'n', 't', 'e', 'n', 't', '-', 'L', 'e', 'n', 'g',
          't', 'h', ':', ' '] ++
        specDecimal resp.body.as_bytes.length) crlf =
        statusLineBytes resp.status_code ++
          (resp.headers.map headerLineBytes).flatten ++
          codes ['C', 'o', 'n', 't', 'e', 'n', 't', '-', 'L', 'e', 'n', 'g',
            't', 'h', ':', ' '] ++
          specDecimal resp.body.as_bytes.length ++ crlf :=
      extendFromSlice_eq (by simp only [List.length_append, h16, hB2]; omega)
    have e6 : extendFromSlice cap (statusLineBytes resp.status_code ++
        (resp.headers.map headerLineBytes).flatten ++
        codes ['C', 'o', 'n', 't', 'e', 'n', 't', '-', 'L', 'e', 'n', 'g',
          't', 'h', ':', ' '] ++
        specDecimal resp.body.as_bytes.length ++ crlf) crlf =
        statusLineBytes resp.status_code ++
          (resp.headers.map headerLineBytes).flatten ++
          codes ['C', 'o', 'n', 't', 'e', 'n', 't', '-', 'L', 'e', 'n', 'g',
            't', 'h', ':', ' '] ++
          specDecimal resp.body.as_bytes.length ++ crlf ++ crlf :=
      extendFromSlice_eq (by simp only [List.length_append, h16, hB2]; omega)
    have e7 : extendFromSlice cap (statusLineBytes resp.status_code ++
        (resp.headers.map headerLineBytes).flatten ++
        codes ['C', 'o', 'n', 't', 'e', 'n', 't', '-', 'L', 'e', 'n', 'g',
          't', 'h', ':', ' '] ++
        specDecimal resp.body.as_bytes.length ++ crlf ++ crlf)
        resp.body.as_bytes =
        statusLineBytes resp.status_code ++
          (resp.headers.map headerLineBytes).flatten ++
          codes ['C', 'o', 'n', 't', 'e', 'n', 't', '-', 'L', 'e', 'n', 'g',
            't', 'h', ':', ' '] ++
          specDecimal resp.body.as_bytes.length ++ crlf ++ crlf ++
          resp.body.as_bytes :=
      extendFromSlice_eq (by simp only [List.length_append, h16, hB2]; omega)
    rw [build_bytes, e1]
    dsimp only
    rw [if_neg hE, e2, e3, e4]
    dsimp only
    rw [e5, e6, e7]
    rw [renderFull, if_neg hE]
    simp [contentLengthBytes, List.append_assoc]

theorem range_find?_eq_some {p : Nat → Bool} {n i : Nat} :
    (List.range n).find? p = some i ↔
      i < n ∧ p i = true ∧ ∀ j, j < i → p j = false := by
  rw [List.find?_eq_some]
  constructor
  · rintro ⟨hpi, as, bs, hsplit, hmem⟩
    have hlen : as.length < n := by
      have h0 := congrArg List.length hsplit
      simp at h0
      omega
    have hik : i = as.length := by
      have h1 : (List.range n)[as.length]? = some as.length := by
        rw [List.getElem?_eq_getElem (by simpa using hlen)]
        simp
      have h2 : (List.range n)[as.length]? = some i := by
        rw [hsplit, List.getElem?_append_right (Nat.le_refl _)]
        simp
      rw [h1] at h2
      simpa using h2.symm
    have has : as = List.range as.length := by
      have h3 := congrArg (List.take as.length) hsplit
      rw [List.take_range, List.take_left' rfl,
        Nat.min_eq_left (by omega)] at h3
      exact h3.symm
    refine ⟨by omega, hpi, fun j hj => ?_⟩
    have hjmem : j ∈ as := by
      rw [has]
      exact List.mem_range.mpr (by omega)
    simpa using hmem j hjmem
  · rintro ⟨hin, hpi, hmin⟩
    refine ⟨hpi, List.range i, List.range' (i + 1) (n - i - 1), ?_, ?_⟩
    · have hr : i :: List.range' (i + 1) (n - i - 1) =
          List.range' i (n - i) := by
        have hni : n - i = (n - i - 1) + 1 := by omega
        rw [hni, List.range'_succ]
        simp
      rw [hr, List.range_eq_range', List.range_eq_range']
      have := List.range'_append_1 0 i (n - i)
      simp only [Nat.zero_add] at this
      rw [this]
      congr 1
      omega
    · intro a ha
      simp only [List.mem_range] at ha
      simp [hmin a ha]

theorem range_find?_eq_none {p : Nat → Bool} {n : Nat} :
    (List.range n).find? p = none ↔ ∀ j, j < n → p j = false := by
  rw [List.find?_eq_none]
  constructor
  · intro h j hj
    simpa using h j (List.mem_range.mpr hj)
  · intro h x hx
    simp [h x (List.mem_range.mp hx)]

theorem hasDoubleCrlfAt_lt {data : List Nat} {j : Nat}
    (h : hasDoubleCrlfAt data j) : j < data.length - 3 := by
  rw [hasDoubleCrlfAt] at h
  have h4 := congrArg List.length h
  simp at h4
  omega

theorem find_double_crlf_eq_some {data : List Nat} {i : Nat} :
    find_double_crlf data = some i ↔
      hasDoubleCrlfAt data i ∧ ∀ j, j < i → ¬ hasDoubleCrlfAt data j := by
  rw [find_double_crlf, range_find?_eq_some]
  constructor
  · rintro ⟨-, hp, hmin⟩
    refine ⟨by simpa [hasDoubleCrlfAt] using hp, fun j hj hcon => ?_⟩
    have := hmin j hj
    rw [hasDoubleCrlfAt] at hcon
    simp [hcon] at this
  · rintro ⟨hp, hmin⟩
    refine ⟨hasDoubleCrlfAt_lt hp, by simpa [hasDoubleCrlfAt] using hp,
      fun j hj => ?_⟩
    have := hmin j hj
    rw [hasDoubleCrlfAt] at this
    simpa using this

theorem find_double_crlf_eq_none {data : List Nat} :
    find_double_crlf data = none ↔ ∀ j, ¬ hasDoubleCrlfAt data j := by
  rw [find_double_crlf, range_find?_eq_none]
  constructor
  · intro h j hcon
    have hlt := hasDoubleCrlfAt_lt hcon
    have := h j hlt
    rw [hasDoubleCrlfAt] at hcon
    simp [hcon] at this
  · intro h j _
    have := h j
    rw [hasDoubleCrlfAt] at this
    simpa using this

theorem parseHeadersLoop_error : ∀ {lns : List (List Nat)}
    {acc : List HttpHeader} {e : Error}, parseHeadersLoop lns acc = .error e →
    e = .invalidResponse msgTooManyHeaders := by
  intro lns
  induction lns with
  | nil =>
    intro acc e h
    rw [parseHeadersLoop] at h
    simp at h
  | cons line rest ih =>
    intro acc e h
    rw [parseHeadersLoop] at h
    split at h
    · simp at h
    · split at h
      · exact ih h
      · split at h
        · exact ih h
        · simp at h
          exact h.symm

theorem parse_from_ok_body {s b : List Nat} {r : HttpRequest}
    (h : parse_from s b = .ok r) : r.body = b := by
  rw [parse_from] at h
  split at h
  · simp at h
  · split at h
    · simp at h
    · simp at h
    · simp at h
    · split at h
      · simp at h
      · split at h
        · simp at h
        · simp at h
          rw [← h]

theorem parse_from_error_body_irrel {s b b' : List Nat} {e : Error}
    (h : parse_from s b = .error e) : parse_from s b' = .error e := by
  rw [parse_from] at h ⊢
  split at h
  · exact h
  · split at h
    · exact h
    · exact h
    · exact h
    · split at h
      · exact h
      · split at h
        · exact h
        · simp at h

theorem parse_from_error_mem {s b : List Nat} {e : Error}
    (h : parse_from s b = .error e) :
    e = .invalidResponse msgMissingRequestLine ∨
    e = .invalidResponse msgMissingMethod ∨
    e = .invalidResponse msgMissingPath ∨
    e = .invalidResponse msgMissingVersion ∨
    e = .invalidResponse msgUnknownMethod ∨
    e = .invalidResponse msgTooManyHeaders := by
  rw [parse_from] at h
  split at h
  · simp at h
    exact Or.inl h.symm
  · split at h
    · simp at h
      exact Or.inr (Or.inl h.symm)
    · simp at h
      exact Or.inr (Or.inr (Or.inl h.symm))
    · simp at h
      exact Or.inr (Or.inr (Or.inr (Or.inl h.symm)))
    · split at h
      · simp at h
        exact Or.inr (Or.inr (Or.inr (Or.inr (Or.inl h.symm))))
      · split at h <;> rename_i hploop
        · simp at h
          exact Or.inr (Or.inr (Or.inr (Or.inr (Or.inr
            (h ▸ parseHeadersLoop_error hploop)))))
        · simp at h

/-- C7: the header/body boundary scan `find_double_crlf` returns the index of
the first occurrence of the CRLF CRLF sequence in the buffer and `none` when
no occurrence exists; in particular an occurrence at byte offset 0 and an
occurrence whose last byte is the final byte of the buffer (offset
`length - 4`) are both recognized. -/
theorem claim_C7_find_double_crlf_first (data : List Nat) :
    (∀ i, find_double_crlf data = some i ↔
      hasDoubleCrlfAt data i ∧ ∀ j, j < i → ¬ hasDoubleCrlfAt data j) ∧
    (find_double_crlf data = none ↔ ∀ j, ¬ hasDoubleCrlfAt data j) ∧
    (hasDoubleCrlfAt data 0 → find_double_crlf data = some 0) ∧
    (hasDoubleCrlfAt data (data.length - 4) →
      find_double_crlf data ≠ none) := by
  refine ⟨fun i => find_double_crlf_eq_some, find_double_crlf_eq_none,
    ?_, ?_⟩
  · intro h0
    exact find_double_crlf_eq_some.mpr
      ⟨h0, fun j hj => absurd hj (by omega)⟩
  · intro hlast hnone
    exact (find_double_crlf_eq_none.mp hnone) _ hlast

/-- C7 witness: a boundary at offset 0 and one at the very end of the buffer
are found. -/
theorem claim_C7_witness :
    find_double_crlf [13, 10, 13, 10, 66] = some 0 ∧
    find_double_crlf [72, 13, 10, 13, 10] ≠ none :=
  ⟨(claim_C7_find_double_crlf_first [13, 10, 13, 10, 66]).2.2.1 (by decide),
    (claim_C7_find_double_crlf_first [72, 13, 10, 13, 10]).2.2.2 (by decide)⟩

/-- C1: the full-message parser fails with the "Incomplete request headers"
classification exactly when the CRLF CRLF separator is absent; when the first
occurrence is at `i`, the bytes before it must decode as UTF-8 or parsing
fails with the "Invalid UTF-8 in request" classification, and on success of
the decoding the parse continues on the bytes after the separator, which
become the body span unconditionally (a successful parse stores the body
as-is and a parse error never depends on the body bytes). -/
theorem claim_C1_try_from_boundary (buffer : List Nat) :
    (try_from buffer = .error (.invalidResponse msgIncompleteHeaders) ↔
      ∀ j, ¬ hasDoubleCrlfAt buffer j) ∧
    (∀ i, hasDoubleCrlfAt buffer i →
      (∀ j, j < i → ¬ hasDoubleCrlfAt buffer j) →
      ((utf8Decode (buffer.take i) = none →
        try_from buffer = .error (.invalidResponse msgInvalidUtf8)) ∧
      (∀ s, utf8Decode (buffer.take i) = some s →
        try_from buffer = parse_from s (buffer.drop (i + 4))))) ∧
    (∀ s b r, parse_from s b = .ok r → r.body = b) ∧
    (∀ s b b' e, parse_from s b = .error e → parse_from s b' = .error e) := by
  refine ⟨⟨?_, ?_⟩, ?_, fun s b r => parse_from_ok_body,
    fun s b b' e => parse_from_error_body_irrel⟩
  · intro h
    rw [try_from] at h
    split at h
    · next hf => exact find_double_crlf_eq_none.mp hf
    · exfalso
      split at h
      · simp at h
        exact absurd h (by decide)
      · rcases parse_from_error_mem h with h1 | h1 | h1 | h1 | h1 | h1 <;>
          exact absurd h1 (by decide)
  · intro hno
    rw [try_from, find_double_crlf_eq_none.mpr hno]
  · intro i hi hmin
    have hf : find_double_crlf buffer = some i :=
      find_double_crlf_eq_some.mpr ⟨hi, hmin⟩
    constructor
    · intro hu
      rw [try_from, hf]
      dsimp only
      rw [hu]
    · intro s hu
      rw [try_from, hf]
      dsimp only
      rw [hu]

/-- C1 witness: a complete GET request buffer with body bytes after the
separator parses through the header text before the separator and the body
span after it. -/
theorem claim_C1_witness :
    try_from (codes ['G', 'E', 'T', ' ', '/', ' ', 'H', 'T', 'T', 'P', '/',
        '1', '.', '1'] ++ [13, 10, 13, 10] ++ codes ['H', 'i']) =
      parse_from (codes ['G', 'E', 'T', ' ', '/', ' ', 'H', 'T', 'T', 'P',
        '/', '1', '.', '1'])
        ((codes ['G', 'E', 'T', ' ', '/', ' ', 'H', 'T', 'T', 'P', '/', '1',
          '.', '1'] ++ [13, 10, 13, 10] ++ codes ['H', 'i']).drop (14 + 4)) :=
  ((claim_C1_try_from_boundary _).2.1 14 (by decide) (by decide)).2 _
    (by decide)

/-- C2: the request parser splits the first line on whitespace into method,
path and version; each missing token yields its distinct failure ("Missing
method" / "Missing path" / "Missing version"), an input with no lines fails
as "Missing request line", an unrecognized method token fails with "Unknown
HTTP method", and tokens beyond the third are ignored without validation
(the result does not depend on them). -/
theorem claim_C2_request_line_tokens (hs body : List Nat) :
    (rustLines hs = [] →
      parse_from hs body = .error (.invalidResponse msgMissingRequestLine)) ∧
    (∀ rl rest, rustLines hs = rl :: rest →
      (splitWhitespace rl = [] →
        parse_from hs body = .error (.invalidResponse msgMissingMethod)) ∧
      (∀ m, splitWhitespace rl = [m] →
        parse_from hs body = .error (.invalidResponse msgMissingPath)) ∧
      (∀ m p, splitWhitespace rl = [m, p] →
        parse_from hs body = .error (.invalidResponse msgMissingVersion)) ∧
      (∀ m p v extra, splitWhitespace rl = m :: p :: v :: extra →
        (methodTryFrom m = .error .invalidHttpMethod →
          parse_from hs body = .error (.invalidResponse msgUnknownMethod)) ∧
        (∀ mm, methodTryFrom m = .ok mm →
          parse_from hs body = (parseHeadersLoop rest []).map
            (fun headers => ⟨mm, p, v, headers, body⟩)))) := by
  constructor
  · intro hL
    rw [parse_from, hL]
  · intro rl rest hL
    refine ⟨?_, ?_, ?_, ?_⟩
    · intro hW
      rw [parse_from, hL]
      dsimp only
      rw [hW]
    · intro m hW
      rw [parse_from, hL]
      dsimp only
      rw [hW]
    · intro m p hW
      rw [parse_from, hL]
      dsimp only
      rw [hW]
    · intro m p v extra hW
      constructor
      · intro hM
        rw [parse_from, hL]
        dsimp only
        rw [hW]
        dsimp only
        rw [hM]
      · intro mm hM
        rw [parse_from, hL]
        dsimp only
        rw [hW]
        dsimp only
        rw [hM]
        dsimp only
        cases hP : parseHeadersLoop rest [] <;> rfl

/-- C2 witness: a request line with an extra fourth token parses, ignoring
the extra token. -/
theorem claim_C2_witness :
    parse_from (codes ['G', 'E', 'T', ' ', '/', 'x', ' ', 'H', 'T', 'T', 'P',
        '/', '1', '.', '1', ' ', 'j', 'u', 'n', 'k']) [] =
      (parseHeadersLoop [] []).map (fun headers =>
        ⟨.GET, codes ['/', 'x'], codes ['H', 'T', 'T', 'P', '/', '1', '.',
          '1'], headers, []⟩) :=
  (((claim_C2_request_line_tokens _ []).2
      (codes ['G', 'E', 'T', ' ', '/', 'x', ' ', 'H', 'T', 'T', 'P', '/',
        '1', '.', '1', ' ', 'j', 'u', 'n', 'k']) [] (by decide)).2.2.2
    (codes ['G', 'E', 'T']) (codes ['/', 'x'])
    (codes ['H', 'T', 'T', 'P', '/', '1', '.', '1'])
    [codes ['j', 'u', 'n', 'k']] (by decide)).2 .GET rfl

theorem parseHeadersLoop_collect : ∀ (lns : List (List Nat))
    (acc : List HttpHeader), acc.length ≤ MAX_HEADERS →
    (acc.length + (collectedHeaders lns).length ≤ MAX_HEADERS →
      parseHeadersLoop lns acc = .ok (acc ++ collectedHeaders lns)) ∧
    (MAX_HEADERS < acc.length + (collectedHeaders lns).length →
      parseHeadersLoop lns acc =
        .error (.invalidResponse msgTooManyHeaders)) := by
  intro lns
  induction lns with
  | nil =>
    intro acc hacc
    constructor
    · intro _
      rw [parseHeadersLoop]
      simp [collectedHeaders]
    · intro hgt
      exfalso
      simp [collectedHeaders] at hgt
      omega
  | cons line rest ih =>
    intro acc hacc
    by_cases hemp : line.isEmpty
    · have hc : collectedHeaders (line :: rest) = [] := by
        simp [collectedHeaders, List.takeWhile_cons, hemp]
      rw [hc]
      constructor
      · intro _
        rw [parseHeadersLoop, if_pos hemp]
        simp
      · intro hgt
        exfalso
        simp at hgt
        omega
    · cases hf : line.findIdx? (· == 58) with
      | none =>
        have hc : collectedHeaders (line :: rest) = collectedHeaders rest := by
          simp [collectedHeaders, List.takeWhile_cons, hemp, hf]
        have heq : parseHeadersLoop (line :: rest) acc =
            parseHeadersLoop rest acc := by
          rw [parseHeadersLoop, if_neg hemp, hf]
        rw [hc, heq]
        exact ih acc hacc
      | some cp =>
        have hc : collectedHeaders (line :: rest) =
            HttpHeader.new (rustTrim (line.take cp))
              (rustTrim (line.drop (cp + 1))) :: collectedHeaders rest := by
          simp [collectedHeaders, List.takeWhile_cons, hemp, hf]
        by_cases hlt : acc.length < MAX_HEADERS
        · have heq : parseHeadersLoop (line :: rest) acc =
              parseHeadersLoop rest (acc ++
                [HttpHeader.new (rustTrim (line.take cp))
                  (rustTrim (line.drop (cp + 1)))]) := by
            rw [parseHeadersLoop, if_neg hemp, hf]
            dsimp only
            rw [if_pos hlt]
          have ih2 := ih (acc ++ [HttpHeader.new (rustTrim (line.take cp))
            (rustTrim (line.drop (cp + 1)))]) (by simp; omega)
          rw [hc, heq]
          constructor
          · intro hle
            rw [ih2.1 (by simp at hle ⊢; omega)]
            simp
          · intro hgt
            exact ih2.2 (by simp at hgt ⊢; omega)
        · have heq : parseHeadersLoop (line :: rest) acc =
              .error (.invalidResponse msgTooManyHeaders) := by
            rw [parseHeadersLoop, if_neg hemp, hf]
            dsimp only
            rw [if_neg hlt]
          rw [hc, heq]
          constructor
          · intro hle
            exfalso
            simp at hle
            omega
          · intro _
            rfl

/-- C3: each line after the request line up to a blank line or end of input
is processed as follows: a colon line is split at its first colon, both
sides are trimmed and the pair is inserted in line order; a colon-free line
is silently skipped; and when the collected headers exceed the 16-header
capacity the loop aborts with "Too many headers" instead of truncating or
growing (`collectedHeaders` is that specification, written from the spec
text). -/
theorem claim_C3_header_loop (lns : List (List Nat)) :
    if (collectedHeaders lns).length ≤ MAX_HEADERS
    then parseHeadersLoop lns [] = .ok (collectedHeaders lns)
    else parseHeadersLoop lns [] =
      .error (.invalidResponse msgTooManyHeaders) := by
  have h := parseHeadersLoop_collect lns [] (by simp [MAX_HEADERS])
  split
  · next hle => simpa using h.1 (by simpa using hle)
  · next hgt => exact h.2 (by simp; omega)

/-- C8: `get_header` lookup is ASCII case-insensitive and returns the value
of the first header whose name matches; in particular a Response containing a
header named `Content-Type` is found by the query `content-type`. -/
theorem claim_C8_get_header_case_insensitive (resp : HttpResponse)
    (name : List Nat) :
    (∀ v, get_header resp name = some v ↔
      ∃ pre hd post, resp.headers = pre ++ hd :: post ∧
        eqIgnoreAsciiCase hd.name name = true ∧ hd.value = v ∧
        ∀ h2 ∈ pre, eqIgnoreAsciiCase h2.name name = false) ∧
    ((∃ hd ∈ resp.headers,
        hd.name = codes ['C', 'o', 'n', 't', 'e', 'n', 't', '-', 'T', 'y',
          'p', 'e']) →
      ∃ v, get_header resp
        (codes ['c', 'o', 'n', 't', 'e', 'n', 't', '-', 't', 'y', 'p', 'e']) =
          some v) := by
  constructor
  · intro v
    rw [get_header]
    constructor
    · intro hmap
      obtain ⟨hd, hfind, hval⟩ := Option.map_eq_some'.mp hmap
      obtain ⟨hp, pre, post, hsplit, hpre⟩ := List.find?_eq_some.mp hfind
      exact ⟨pre, hd, post, hsplit, hp, hval,
        fun h2 hh2 => by simpa using hpre h2 hh2⟩
    · rintro ⟨pre, hd, post, hsplit, hp, hval, hpre⟩
      have hfind : resp.headers.find?
          (fun h2 => eqIgnoreAsciiCase h2.name name) = some hd :=
        List.find?_eq_some.mpr ⟨hp, pre, post, hsplit,
          fun x hx => by simpa using hpre x hx⟩
      rw [hfind, ← hval]
      rfl
  · rintro ⟨hd, hmem, hname⟩
    rw [get_header]
    have hsome : (resp.headers.find? (fun h2 => eqIgnoreAsciiCase h2.name
        (codes ['c', 'o', 'n', 't', 'e', 'n', 't', '-', 't', 'y', 'p',
          'e']))).isSome := by
      rw [List.find?_isSome]
      exact ⟨hd, hmem, by rw [hname]; decide⟩
    obtain ⟨hd2, hfind2⟩ := Option.isSome_iff_exists.mp hsome
    exact ⟨hd2.value, by rw [hfind2]; rfl⟩

/-- C8 witness: a response with header `Content-Type: text` answers the query
`content-type`. -/
theorem claim_C8_witness :
    ∃ v, get_header ⟨⟨200, codes ['O', 'K']⟩,
      [⟨codes ['C', 'o', 'n', 't', 'e', 'n', 't', '-', 'T', 'y', 'p', 'e'],
        codes ['t', 'e', 'x', 't']⟩], .Empty⟩
      (codes ['c', 'o', 'n', 't', 'e', 'n', 't', '-', 't', 'y', 'p', 'e']) =
        some v :=
  (claim_C8_get_header_case_insensitive _ []).2
    ⟨⟨codes ['C', 'o', 'n', 't', 'e', 'n', 't', '-', 'T', 'y', 'p', 'e'],
      codes ['t', 'e', 'x', 't']⟩, by simp, rfl⟩

/-- C9: the decimal writer stores digits into a fixed 10-byte array, so it is
total (panic-free) exactly for the inputs whose decimal representation has at
most 10 digits, i.e. `num < 10 ^ 10`; at and above that bound the digit-loop
index leaves the array and the code panics (`none`). -/
theorem claim_C9_digit_array_bound (cap : Nat) (b : List Nat) (n : Nat) :
    (write_decimal_to_buffer cap b n).isSome = true ↔ n < 10 ^ 10 :=
  write_decimal_isSome

/-- C6 counterexample: at input `10 ^ 10` (eleven digits) the decimal writer
does not produce the decimal digit string — the digit loop indexes past the
10-byte array and panics (modelled `none`) — so "for every positive input it
produces the exact decimal digit string" is false as stated. -/
theorem claim_C6_counterexample :
    write_decimal_to_buffer 64 [] 10000000000 = none :=
  write_decimal_overflow (by norm_num)

/-- C6 (amended): 0, 5, 42, 9999 render as "0", "5", "42", "9999", and every
positive input below `10 ^ 10` (at most 10 decimal digits, the bound forced
by the 10-byte digit array) renders, capacity permitting, as the exact
decimal digit string: ASCII digits only, no leading zero, no sign, decimal
value equal to the input, computed least-significant digit first and then
reversed, with the single-digit fast path for zero. -/
theorem claim_C6_decimal_rendering :
    (write_decimal_to_buffer 64 [] 0 = some (codes ['0'])) ∧
    (write_decimal_to_buffer 64 [] 5 = some (codes ['5'])) ∧
    (write_decimal_to_buffer 64 [] 42 = some (codes ['4', '2'])) ∧
    (write_decimal_to_buffer 64 [] 9999 =
      some (codes ['9', '9', '9', '9'])) ∧
    (∀ cap b n, 0 < n → n < 10 ^ 10 →
      b.length + (specDecimal n).length ≤ cap →
      write_decimal_to_buffer cap b n = some (b ++ specDecimal n) ∧
      specDecimal n = (natDigitsRev n).reverse ∧
      (∀ d ∈ specDecimal n, 48 ≤ d ∧ d ≤ 57) ∧
      (∀ d, (specDecimal n).head? = some d → 49 ≤ d) ∧
      decimalValue (specDecimal n) = n) := by
  refine ⟨by decide, ?_, ?_, ?_, ?_⟩
  · simp [write_decimal_to_buffer, writeDigitsLoop, List.replicate]
    decide
  · simp [write_decimal_to_buffer, writeDigitsLoop, List.replicate]
    decide
  · simp [write_decimal_to_buffer, writeDigitsLoop, List.replicate]
    decide
  · intro cap b n hn hlt hcap
    have hne : n ≠ 0 := by omega
    refine ⟨write_decimal_spec hlt hcap, ?_, ?_, ?_,
      decimalValue_specDecimal⟩
    · rw [specDecimal, if_neg (by simpa using hne)]
    · intro d hd
      rw [specDecimal, if_neg (by simpa using hne)] at hd
      exact natDigitsRev_digit_mem d (List.mem_reverse.mp hd)
    · intro d hd
      rw [specDecimal, if_neg (by simpa using hne)] at hd
      rw [List.head?_reverse] at hd
      exact natDigitsRev_getLast d hd

/-- C6 witness: the general rendering statement applied at 7 with enough
capacity. -/
theorem claim_C6_witness :
    0 < 7 ∧ 7 < 10 ^ 10 ∧
    List.length ([] : List Nat) + (specDecimal 7).length ≤ 20 ∧
    write_decimal_to_buffer 20 [] 7 = some ([] ++ specDecimal 7) :=
  ⟨by norm_num, by norm_num, by simp [specDecimal, natDigitsRev],
    (claim_C6_decimal_rendering.2.2.2.2 20 [] 7 (by norm_num) (by norm_num)
      (by simp [specDecimal, natDigitsRev])).1⟩

/-- C5 (defect exhibit): building the 200-OK "Hello" response into a 4-byte
buffer returns the truncated, wire-corrupt bytes "200 " as an ordinary value:
the builder's return carries no failure channel and every append's result is
discarded, so the capacity overflow is never surfaced to the caller. -/
theorem claim_C5_silent_truncation :
    build_bytes 4 respHello = some (codes ['2', '0', '0', ' ']) := by
  simp [build_bytes, write_status_line, write_decimal_to_buffer,
    writeDigitsLoop, List.replicate, respHello]
  decide

/-- C4: with enough buffer capacity, a Response with a non-empty body builds
to bytes containing the synthesized `Content-Length: <n>` line where the
decimal `<n>` equals exactly the byte length of the body bytes written, and a
Response with an empty body builds to status line, user headers and the blank
line only — no synthesized Content-Length and no body bytes. -/
theorem claim_C4_content_length (cap : Nat) (resp : HttpResponse)
    (hsc : resp.status_code.code < 10 ^ 10)
    (hbl : resp.body.as_bytes.length < 10 ^ 10)
    (hcap : (renderFull resp).length ≤ cap) :
    (resp.body.as_bytes ≠ [] →
      build_bytes cap resp = some
        (statusLineBytes resp.status_code ++
          (resp.headers.map headerLineBytes).flatten ++
          contentLengthBytes resp.body.as_bytes.length ++ crlf ++
          resp.body.as_bytes) ∧
      decimalValue (specDecimal resp.body.as_bytes.length) =
        resp.body.as_bytes.length) ∧
    (resp.body.as_bytes = [] →
      build_bytes cap resp = some
        (statusLineBytes resp.status_code ++
          (resp.headers.map headerLineBytes).flatten ++ crlf)) := by
  constructor
  · intro hne
    refine ⟨?_, decimalValue_specDecimal⟩
    rw [build_bytes_eq hsc hbl hcap, renderFull,
      if_neg (fun hcon => hne (List.isEmpty_iff.mp hcon))]
  · intro hnil
    rw [build_bytes_eq hsc hbl hcap, renderFull,
      if_pos (List.isEmpty_iff.mpr hnil), hnil]
    simp

/-- C4 witness: the 200-OK response with body "Hi" builds with the
synthesized Content-Length line for its 2 body bytes. -/
theorem claim_C4_witness :
    build_bytes 64 ⟨⟨200, codes ['O', 'K']⟩, [],
      ResponseBody.Text (codes ['H', 'i'])⟩ =
    some (statusLineBytes ⟨200, codes ['O', 'K']⟩ ++
      (([] : List HttpHeader).map headerLineBytes).flatten ++
      contentLengthBytes
        (ResponseBody.Text (codes ['H', 'i'])).as_bytes.length ++
      crlf ++ (ResponseBody.Text (codes ['H', 'i'])).as_bytes) :=
  ((claim_C4_content_length 64 _ (by norm_num) (by decide)
    (by simp [renderFull, statusLineBytes, contentLengthBytes, specDecimal,
      natDigitsRev, ResponseBody.as_bytes, utf8Encode, utf8EncodeChar, codes,
      crlf])).1 (by decide)).1

/-- C10: the builder decides Content-Length omission by the body's byte
length being zero, not by the variant tag: a Response with body `Text ""` or
`Binary b""` builds to exactly the same bytes as one with body `Empty`. -/
theorem claim_C10_empty_body_variants (cap : Nat) (sc : StatusCode)
    (headers : List HttpHeader) :
    build_bytes cap ⟨sc, headers, .Text []⟩ =
      build_bytes cap ⟨sc, headers, .Empty⟩ ∧
    build_bytes cap ⟨sc, headers, .Binary []⟩ =
      build_bytes cap ⟨sc, headers, .Empty⟩ := by
  constructor <;> rfl
